import Mathlib

/-!
# graphql-helper: a shallow embedding of `src.js`

This file embeds the composition engine of the graphql-helper library
(`src/src.js`, the rollup entry point of the package) in Lean 4 and proves
the claims of the specification against it.

Modelling conventions:

* A JS object with string keys is an insertion-ordered association list
  (`StrMap`); JS keeps non-numeric string keys in insertion order, writing to
  an existing key keeps its position, and a fresh key is appended.  All keys
  used by the library are fragment and operation names, which are non-numeric.
* Template-literal application `f(target, ...values)` is modelled by passing
  the list of literal chunks and the list of interpolated values.
* `throw` is modelled by `Except.error`; the process-wide registries
  (`operationDefinitions`, `fragmentDefinitions`) are threaded explicitly as a
  `GqlState`.
* The network transport and the id generator are external collaborators: only
  the pure continuation applied to the parsed response `{data, errors}` and
  the pure construction of the outgoing request variables are modelled.
-/

namespace GqlHelper

/-- A JS object with string keys, as an insertion-ordered association list. -/
abbrev StrMap (V : Type) := List (String × V)

/-- The keys of a map in insertion order; models `Object.keys`. -/
def keysOf {V : Type} (m : StrMap V) : List String :=
  m.map Prod.fst

/-- Property read `m[k]`: the value stored under `k`, if any. -/
def getProp {V : Type} : StrMap V → String → Option V
  | [], _ => none
  | p :: ps, k => if p.1 = k then some p.2 else getProp ps k

/-- Property write `m[k] = v`: an existing key keeps its original position and
gets the new value; a fresh key is appended at the end.  This is the JS
object-assignment semantics used by both object-literal spread and
`Object.assign`. -/
def setProp {V : Type} (m : StrMap V) (k : String) (v : V) : StrMap V :=
  if k ∈ keysOf m then
    m.map (fun p => if p.1 = k then (k, v) else p)
  else
    m ++ [(k, v)]

/-- `Object.assign(acc, src)` (used by `mergeFragments`, src.js line 251):
writes every entry of `src` into `acc`, in order. -/
def objAssign {V : Type} : StrMap V → StrMap V → StrMap V
  | acc, [] => acc
  | acc, p :: ps => objAssign (setProp acc p.1 p.2) ps

/-- `valuesOf` (src.js lines 268-270): `Object.keys(map).map(k => map[k])`;
for the maps built by this library (unique keys) this is the list of values in
key-insertion order. -/
def valuesOf {V : Type} (m : StrMap V) : List V :=
  m.map Prod.snd

/-- `Array.prototype.join(' ')` on a list of strings. -/
def joinSp : List String → String
  | [] => ""
  | [s] => s
  | s :: rest => s ++ " " ++ joinSp rest

/-- A fragment-bearing value: anything tagged `__GRAPHQL_QUERY_PARTIAL__` in
src.js (a Partial, a Union, or a Fragment).  For interpolation and merging
only its stringification and its flattened fragment-definition map matter. -/
structure Piece where
  text : String
  fragments : StrMap String
deriving Repr, DecidableEq

/-- An interpolated template value: either a plain value inlined via its
string form, or a fragment-bearing piece. -/
inductive Value where
  | plain (s : String)
  | piece (p : Piece)
deriving Repr, DecidableEq

/-- `asPartial` (src.js lines 246-247): a value qualifies iff it carries the
partial tag. -/
def Value.asPiece : Value → Option Piece
  | .plain _ => none
  | .piece p => some p

/-- `String(v)`: the inline string form of an interpolated value. -/
def Value.str : Value → String
  | .plain s => s
  | .piece p => p.text

/-- `mergeFragments` (src.js lines 249-251):
`values.map(asPartial).filter(x => !!x).reduce((acc, {fragments}) => Object.assign(acc, fragments), {})`.
Note that it is total: it raises no error on key collisions. -/
def mergeFragments (values : List Value) : StrMap String :=
  (values.filterMap Value.asPiece).foldl (fun acc p => objAssign acc p.fragments) []

/-- `String.raw(target, ...values)`: interleaves the literal chunks with the
string forms of the interpolated values. -/
def stringRaw : List String → List Value → String
  | [], _ => ""
  | c :: cs, [] => c ++ stringRaw cs []
  | c :: cs, v :: vs => c ++ v.str ++ stringRaw cs vs

/-- A built Fragment (src.js lines 198-229): its name, its on-type and its
flattened fragment-definition map (which includes its own definition). -/
structure Fragment where
  name : String
  type : String
  fragments : StrMap String
deriving Repr, DecidableEq, Inhabited

/-- `Fragment.toString()` (src.js line 222): the spread reference. -/
def Fragment.spread (f : Fragment) : String := "..." ++ f.name

/-- A Fragment used as an interpolated value: it carries the partial tag, its
stringification is its spread text, and it exposes its fragment map. -/
def Fragment.toPiece (f : Fragment) : Piece := ⟨f.spread, f.fragments⟩

/-- The decorations attached to the callable returned by the query and
mutation builders (src.js lines 99-109 and 140-155). -/
structure Operation where
  operationName : String
  operation : String
  fragments : StrMap String
  queryString : String
  isMutation : Bool
deriving Repr, DecidableEq, Inhabited

/-- The process-wide registries: `operationDefinitions` (src.js line 75,
shared by queries and mutations) and `fragmentDefinitions` (src.js line
207). -/
structure GqlState where
  operationDefinitions : StrMap Operation
  fragmentDefinitions : StrMap Fragment
deriving Repr, DecidableEq, Inhabited

/-- `invariant` (src.js lines 21-23): throws unless the condition holds or
invariants are ignored. -/
def invariant (ignoreInvariants condition : Bool) (message : String) :
    Except String Unit :=
  if !ignoreInvariants && !condition then .error message else .ok ()

/-- `runMaybe` (src.js lines 264-266).  The first argument is checked for JS
truthiness; the argument supplied in `query` is an object, and every object
(the empty one included) is truthy, so `Option.map` is faithful here. -/
def runMaybe {A B : Type} (x : Option A) (f : A → B) : Option B := x.map f

/-- `wrapParens` (src.js line 77): `str ? \x28$\x7bstr\x7d\x29 : ''`; both
null and the empty string are falsy and produce the empty string. -/
def wrapParens : Option String → String
  | none => ""
  | some s => if s = "" then "" else "(" ++ s ++ ")"

/-- The body of the arrow function at src.js line 83:
`Object.keys(v).map(k => ...).join(',')` renders each variable as
`$key:type` (no spaces) and joins with a bare comma. -/
def varClause (v : StrMap String) : String :=
  String.intercalate "," (v.map (fun p => "$" ++ p.1 ++ ":" ++ p.2))

/-- The rendered variable clause of a query (src.js lines 81-85). -/
def queryParams (varsDef : Option (StrMap String)) : String :=
  wrapParens (runMaybe varsDef varClause)

/-- `query(name, varsDef)` applied to a template literal (src.js lines
79-112): checks the duplicate-operation invariant, merges the interpolated
fragment maps, renders the operation text and the full document text, and
registers the operation under `name`. -/
def queryBuild (ignoreInvariants : Bool) (s : GqlState) (name : String)
    (varsDef : Option (StrMap String)) (chunks : List String)
    (values : List Value) : Except String (GqlState × Operation) :=
  match invariant ignoreInvariants (getProp s.operationDefinitions name).isNone
      ( "ERROR: There is already an operation named " ++ name) with
  | .error e => .error e
  | .ok _ =>
    let fragments := mergeFragments values
    let operation :=
      "query " ++ name ++ " " ++ queryParams varsDef ++ " " ++ stringRaw chunks values
    let queryString := operation ++ " " ++ joinSp (valuesOf fragments)
    let op : Operation :=
      { operationName := name, operation := operation, fragments := fragments,
        queryString := queryString, isMutation := false }
    .ok ({ s with operationDefinitions := setProp s.operationDefinitions name op }, op)

/-- `capitalize` (src.js lines 256-258): `s[0].toUpperCase() + s.slice(1)`.
On the empty string `s[0]` is `undefined` and calling `toUpperCase` on it
throws a TypeError. -/
def capitalize (s : String) : Except String String :=
  match s.data with
  | [] => .error "TypeError"
  | c :: cs => .ok (String.mk (c.toUpper :: cs))

/-- What the first stage of `mutation(name, varsDef)` computes (src.js lines
116-120), before the template literal is applied and before any registry
check.  The caller-supplied `varsDef` is never read by the mutation builder. -/
structure MutationHead where
  name : String
  capitalized : String
  inputType : String
  payloadType : String
deriving Repr, DecidableEq, Inhabited

/-- The first-stage call `mutation(name, varsDef)` (src.js lines 116-120):
it capitalizes the name (which can throw) and fixes the conventional
input/payload type names. -/
def mutationStage1 (name : String) : Except String MutationHead :=
  match capitalize name with
  | .error e => .error e
  | .ok capitalized =>
    .ok { name := name, capitalized := capitalized,
          inputType := capitalized ++ "Input",
          payloadType := capitalized ++ "Payload" }

/-- The mutation operation text (src.js lines 131-136), with the template
literal whitespace reproduced exactly. -/
def mutationOperationText (h : MutationHead) (chunks : List String)
    (values : List Value) : String :=
  "mutation " ++ h.capitalized ++ "($input: " ++ h.inputType ++
    "!)\x7b\n      payload: " ++ h.name ++
    "(input: $input) \x7b\n        clientMutationId\n        ... on " ++
    h.payloadType ++ " " ++ stringRaw chunks values ++ "\n      \x7d\n    \x7d"

/-- The second stage of the mutation builder (src.js lines 122-157): checks
the duplicate-operation invariant under the capitalized name, merges the
interpolated fragment maps, renders the texts and registers the operation
under the capitalized name in the same registry used by queries. -/
def mutationBuild (ignoreInvariants : Bool) (s : GqlState) (h : MutationHead)
    (chunks : List String) (values : List Value) :
    Except String (GqlState × Operation) :=
  match invariant ignoreInvariants
      (getProp s.operationDefinitions h.capitalized).isNone
      ( "ERROR: There is already an operation named " ++ h.capitalized) with
  | .error e => .error e
  | .ok _ =>
    let fragments := mergeFragments values
    let operation := mutationOperationText h chunks values
    let queryString := operation ++ " " ++ joinSp (valuesOf fragments)
    let op : Operation :=
      { operationName := h.capitalized, operation := operation,
        fragments := fragments, queryString := queryString, isMutation := true }
    .ok ({ s with operationDefinitions :=
             setProp s.operationDefinitions h.capitalized op }, op)

/-- The definition text of a fragment (src.js line 225). -/
def fragmentDefText (name type : String) (chunks : List String)
    (values : List Value) : String :=
  "fragment " ++ name ++ " on " ++ type ++ " " ++ stringRaw chunks values

/-- `fragment(name, type)` applied to a template literal (src.js lines
209-229): checks the duplicate-name invariant, builds the Fragment whose map
is the merge of the interpolated values' maps with its own definition written
last (object-literal spread followed by a computed key), and registers it. -/
def fragmentBuild (ignoreInvariants : Bool) (s : GqlState) (name type : String)
    (chunks : List String) (values : List Value) :
    Except String (GqlState × Fragment) :=
  match invariant ignoreInvariants (getProp s.fragmentDefinitions name).isNone
      ( "ERROR: there is already a fragment with name " ++ name) with
  | .error e => .error e
  | .ok _ =>
    let f : Fragment :=
      { name := name, type := type,
        fragments :=
          setProp (mergeFragments values) name
            (fragmentDefText name type chunks values) }
    .ok ({ s with fragmentDefinitions := setProp s.fragmentDefinitions name f }, f)

/-- `union(...partials)` (src.js lines 233-238): an unregistered aggregator
piece whose stringification is `__typename ` followed by the space-joined
member stringifications, and whose map is the merge of the members' maps. -/
def unionOf (pieces : List Piece) : Piece :=
  { text := "__typename " ++ joinSp (pieces.map Piece.text),
    fragments := mergeFragments (pieces.map Value.piece) }

/-- A JSON-ish JS value, enough to model transport responses and outgoing
request variables. -/
inductive Js where
  | null
  | undefined
  | bool (b : Bool)
  | num (n : Int)
  | str (s : String)
  | arr (xs : List Js)
  | obj (fields : List (String × Js))

/-- JS truthiness: `null`, `undefined`, `false`, `0` and the empty string are
falsy; every object and every array (the empty array included) is truthy. -/
def Js.truthy : Js → Bool
  | .null => false
  | .undefined => false
  | .bool b => b
  | .num n => n != 0
  | .str s => s != ""
  | .arr _ => true
  | .obj _ => true

/-- Property access `v.k` on a JS value (only used on objects here). -/
def Js.get : Js → String → Js
  | .obj fields, k => (getProp fields k).getD .undefined
  | _, _ => .undefined

/-- A parsed transport response `r = {data, errors}`. -/
structure GqlResponse where
  data : Js
  errors : Js

/-- The continuation bound by the query callable (src.js line 101):
`r.errors ? Promise.reject(r.errors) : Promise.resolve(r.data)`. -/
def queryHandle (r : GqlResponse) : Except Js Js :=
  if r.errors.truthy then .error r.errors else .ok r.data

/-- The continuation bound by the mutation callable (src.js line 147):
`r.errors ? Promise.reject(r.errors) : Promise.resolve(r.data.payload)`. -/
def mutationHandle (r : GqlResponse) : Except Js Js :=
  if r.errors.truthy then .error r.errors else .ok (r.data.get "payload")

/-- The `input` field of the outgoing mutation request (src.js lines
143-146): the object literal `\x7bclientMutationId: gen(), ...variables\x7d`,
where `gen` is the configured id-generator collaborator. -/
def mutationRequestInput (generatedId : String) (vars : StrMap Js) :
    StrMap Js :=
  objAssign [( "clientMutationId", Js.str generatedId )] vars

/-- The full variables object sent by the mutation callable (src.js lines
141-146): `\x7b input: \x7bclientMutationId: gen(), ...variables\x7d \x7d`. -/
def mutationInvokeBody (generatedId : String) (vars : StrMap Js) : Js :=
  Js.obj [( "input", Js.obj (mutationRequestInput generatedId vars) )]

/-- A fragment construction tree: the shape of nested fragment-builder calls,
each node a fragment whose template interpolates the built Fragments of its
children. -/
inductive FTree where
  | node (name type : String) (chunks : List String) (deps : List FTree)

mutual
/-- The Fragment value constructed by `fragment` (src.js lines 217-227) for a
construction tree, with its interpolated values the built children. -/
def FTree.build : FTree → Fragment
  | .node name type chunks deps =>
    { name := name, type := type,
      fragments :=
        setProp (mergeFragments (FTree.buildList deps)) name
          (fragmentDefText name type chunks (FTree.buildList deps)) }

/-- The interpolated values corresponding to a list of construction trees. -/
def FTree.buildList : List FTree → List Value
  | [] => []
  | t :: ts => Value.piece (FTree.build t).toPiece :: FTree.buildList ts
end

mutual
/-- The names of all fragments transitively reachable from a fragment
(itself included). -/
def FTree.reachNames : FTree → List String
  | .node name _ _ deps => name :: FTree.reachList deps

/-- The names of all fragments transitively reachable from a list of
fragments. -/
def FTree.reachList : List FTree → List String
  | [] => []
  | t :: ts => FTree.reachNames t ++ FTree.reachList ts
end

end GqlHelper

namespace GqlHelper

/-! ## Concrete instances used to instantiate the theorems -/

/-- A leaf fragment named C: the shared diamond dependency. -/
def c1TreeC : FTree := .node "C" "C" [ "\x7b c \x7d" ] []

/-- A fragment named A that interpolates C. -/
def c1TreeA : FTree := .node "A" "A" [ "\x7b ", " \x7d" ] [c1TreeC]

/-- A fragment named B that also interpolates C. -/
def c1TreeB : FTree := .node "B" "B" [ "\x7b ", " \x7d" ] [c1TreeC]

/-- A query over both A and B: the diamond ancestor. -/
def c1Res : Except String (GqlState × Operation) :=
  queryBuild false ⟨[], []⟩ "Q" none [ "\x7b ", " ", " \x7d" ]
    [Value.piece (FTree.build c1TreeA).toPiece,
      Value.piece (FTree.build c1TreeB).toPiece]

/-- The state after building the diamond ancestor query. -/
def c1St : GqlState := (c1Res.toOption.map Prod.fst).getD default

/-- The diamond ancestor operation. -/
def c1Op : Operation := (c1Res.toOption.map Prod.snd).getD default

/-- A query over one fragment-bearing value, to exhibit the document
separators. -/
def c3Res : Except String (GqlState × Operation) :=
  queryBuild false ⟨[], []⟩ "Q" none [ "\x7b a ", " \x7d" ]
    [Value.piece ⟨ "...F", [( "F", "fragment F on F \x7b x \x7d" )] ⟩ ]

/-- The operation built by `c3Res`. -/
def c3Op : Operation := (c3Res.toOption.map Prod.snd).getD default

/-- The query of the variable-clause example: `variablesDef = \x7bid: ID!\x7d`
and body `\x7b post(id: $id) \x7b title \x7d \x7d`, no fragments. -/
def c4Res : Except String (GqlState × Operation) :=
  queryBuild false ⟨[], []⟩ "GetPost" (some [( "id", "ID!" )])
    [ "\x7b post(id: $id) \x7b title \x7d \x7d" ] []

/-- The state after building the variable-clause example query. -/
def c4St : GqlState := (c4Res.toOption.map Prod.fst).getD default

/-- The operation of the variable-clause example query. -/
def c4Op : Operation := (c4Res.toOption.map Prod.snd).getD default

/-- A first fragment registration under the name F. -/
def c5Res : Except String (GqlState × Fragment) :=
  fragmentBuild false ⟨[], []⟩ "F" "F" [ "\x7b x \x7d" ] []

/-- The state after the first registration of F. -/
def c5St : GqlState := (c5Res.toOption.map Prod.fst).getD default

/-- The first-registered Fragment F. -/
def c5Frag : Fragment := (c5Res.toOption.map Prod.snd).getD default

/-- The first stage of the mutation builder applied to createPost. -/
def c7Head : MutationHead := (mutationStage1 "createPost").toOption.getD default

/-- The built createPost mutation. -/
def c7Res : Except String (GqlState × Operation) :=
  mutationBuild false ⟨[], []⟩ c7Head [ "\x7b post \x7b title \x7d \x7d" ] []

/-- The state after building the createPost mutation. -/
def c7St : GqlState := (c7Res.toOption.map Prod.fst).getD default

/-- The createPost mutation operation. -/
def c7Op : Operation := (c7Res.toOption.map Prod.snd).getD default

/-- Two fragments with identical fragment maps, for the union example. -/
def c8FragA : Fragment := ⟨ "A", "A", [( "X", "fragment X on X \x7b x \x7d" )] ⟩

/-- The second fragment of the union example. -/
def c8FragB : Fragment := ⟨ "B", "B", [( "X", "fragment X on X \x7b x \x7d" )] ⟩

/-- A query registered under the name CreatePost. -/
def c9QRes : Except String (GqlState × Operation) :=
  queryBuild false ⟨[], []⟩ "CreatePost" none [ "\x7b a \x7d" ] []

/-- The state after registering the CreatePost query. -/
def c9QSt : GqlState := (c9QRes.toOption.map Prod.fst).getD default

/-- The CreatePost query operation. -/
def c9QOp : Operation := (c9QRes.toOption.map Prod.snd).getD default

/-- The first stage of the createPost mutation builder. -/
def c9Head : MutationHead := (mutationStage1 "createPost").toOption.getD default

/-- A createPost mutation built on an empty registry. -/
def c9MRes : Except String (GqlState × Operation) :=
  mutationBuild false ⟨[], []⟩ c9Head [ "\x7b m \x7d" ] []

/-- The state after registering the createPost mutation. -/
def c9MSt : GqlState := (c9MRes.toOption.map Prod.fst).getD default

/-- The createPost mutation operation of the registry example. -/
def c9MOp : Operation := (c9MRes.toOption.map Prod.snd).getD default

/-! ## Lemmas about the JS object model -/

theorem keysOf_append {V : Type} (m m2 : StrMap V) :
    keysOf (m ++ m2) = keysOf m ++ keysOf m2 :=
  List.map_append _ m m2

theorem getProp_eq_none {V : Type} (m : StrMap V) (k : String) :
    getProp m k = none ↔ k ∉ keysOf m := by
  induction m with
  | nil => simp [getProp, keysOf]
  | cons p ps ih =>
    by_cases h : p.1 = k
    · simp [getProp, h, keysOf]
    · have h2 : ¬ (k = p.1) := fun e => h e.symm
      simp [getProp, h, keysOf, ih, h2]

theorem getProp_append {V : Type} (m m2 : StrMap V) (k : String) :
    getProp (m ++ m2) k = (getProp m k).or (getProp m2 k) := by
  induction m with
  | nil => simp [getProp, Option.none_or]
  | cons p ps ih =>
    by_cases h : p.1 = k <;> simp [getProp, h, ih, Option.or]

theorem getProp_mapUpdate_self {V : Type} (m : StrMap V) (k : String) (v : V)
    (hk : k ∈ keysOf m) :
    getProp (m.map fun p => if p.1 = k then (k, v) else p) k = some v := by
  induction m with
  | nil => simp [keysOf] at hk
  | cons p ps ih =>
    by_cases h : p.1 = k
    · simp [getProp, h]
    · have hk2 : k ∈ keysOf ps := by
        simp [keysOf] at hk
        rcases hk with h1 | h1
        · exact absurd h1.symm h
        · simpa [keysOf] using h1
      simp [getProp, h, ih hk2]

theorem getProp_mapUpdate_ne {V : Type} (m : StrMap V) (k : String) (v : V)
    (a : String) (h : a ≠ k) :
    getProp (m.map fun p => if p.1 = k then (k, v) else p) a = getProp m a := by
  induction m with
  | nil => rfl
  | cons p ps ih =>
    by_cases hp : p.1 = k
    · have h1 : ¬ (k = a) := fun e => h e.symm
      have h2 : ¬ (p.1 = a) := by rw [hp]; exact h1
      simp [getProp, hp, h1, h2, ih]
    · by_cases hq : p.1 = a <;> simp [getProp, hp, hq, ih, h]

theorem keysOf_setProp {V : Type} (m : StrMap V) (k : String) (v : V) :
    keysOf (setProp m k v) =
      if k ∈ keysOf m then keysOf m else keysOf m ++ [k] := by
  unfold setProp
  split
  · rename_i hk
    unfold keysOf
    rw [List.map_map]
    apply List.map_congr_left
    intro p hp
    by_cases h : p.1 = k <;> simp [h, Function.comp]
  · rename_i hk
    rw [keysOf_append]
    rfl

theorem mem_keysOf_setProp {V : Type} (m : StrMap V) (k : String) (v : V)
    (a : String) :
    a ∈ keysOf (setProp m k v) ↔ a ∈ keysOf m ∨ a = k := by
  rw [keysOf_setProp]
  split
  · rename_i hk
    constructor
    · exact Or.inl
    · rintro (h | rfl)
      · exact h
      · exact hk
  · simp

theorem nodup_keysOf_setProp {V : Type} (m : StrMap V) (k : String) (v : V)
    (h : (keysOf m).Nodup) : (keysOf (setProp m k v)).Nodup := by
  rw [keysOf_setProp]
  split
  · exact h
  · rename_i hk
    rw [List.nodup_append]
    refine ⟨h, List.nodup_singleton k, ?_⟩
    intro a ha hb
    rw [List.mem_singleton] at hb
    subst hb
    exact hk ha

theorem getProp_setProp_self {V : Type} (m : StrMap V) (k : String) (v : V) :
    getProp (setProp m k v) k = some v := by
  unfold setProp
  split
  · rename_i hk
    exact getProp_mapUpdate_self m k v hk
  · rename_i hk
    rw [getProp_append, (getProp_eq_none m k).mpr hk]
    simp [getProp, Option.none_or]

theorem getProp_setProp_ne {V : Type} (m : StrMap V) (k : String) (v : V)
    (a : String) (h : a ≠ k) :
    getProp (setProp m k v) a = getProp m a := by
  unfold setProp
  split
  · exact getProp_mapUpdate_ne m k v a h
  · have h1 : ¬ (k = a) := fun e => h e.symm
    rw [getProp_append]
    have h2 : getProp [(k, v)] a = none := by simp [getProp, h1]
    rw [h2, Option.or_none]

theorem objAssign_cons {V : Type} (m : StrMap V) (p : String × V)
    (ps : StrMap V) :
    objAssign m (p :: ps) = objAssign (setProp m p.1 p.2) ps := rfl

theorem mem_keysOf_objAssign {V : Type} (m src : StrMap V) (a : String) :
    a ∈ keysOf (objAssign m src) ↔ a ∈ keysOf m ∨ a ∈ keysOf src := by
  induction src generalizing m with
  | nil => simp [objAssign, keysOf]
  | cons p ps ih =>
    rw [objAssign_cons, ih, mem_keysOf_setProp]
    show _ ↔ a ∈ keysOf m ∨ a ∈ p.1 :: keysOf ps
    simp [List.mem_cons]
    tauto

theorem nodup_keysOf_objAssign {V : Type} (m src : StrMap V)
    (h : (keysOf m).Nodup) : (keysOf (objAssign m src)).Nodup := by
  induction src generalizing m with
  | nil => exact h
  | cons p ps ih => exact ih _ (nodup_keysOf_setProp _ _ _ h)

theorem getProp_objAssign {V : Type} (m src : StrMap V) (a : String) :
    getProp (objAssign m src) a = (getProp src.reverse a).or (getProp m a) := by
  induction src generalizing m with
  | nil => simp [objAssign, getProp, Option.none_or]
  | cons p ps ih =>
    rw [objAssign_cons, ih, List.reverse_cons, getProp_append, Option.or_assoc]
    congr 1
    by_cases h : p.1 = a
    · subst h
      simp [getProp_setProp_self, getProp, Option.or]
    · have h1 : a ≠ p.1 := fun e => h e.symm
      rw [getProp_setProp_ne m p.1 p.2 a h1]
      have h2 : getProp [p] a = none := by simp [getProp, h]
      rw [h2, Option.none_or]

theorem keysOf_reverse {V : Type} (m : StrMap V) :
    keysOf m.reverse = (keysOf m).reverse :=
  List.map_reverse _ _

theorem getProp_reverse {V : Type} (m : StrMap V) (a : String)
    (h : (keysOf m).Nodup) : getProp m.reverse a = getProp m a := by
  induction m with
  | nil => rfl
  | cons p ps ih =>
    have hn := List.nodup_cons.mp h
    rw [List.reverse_cons, getProp_append]
    by_cases hc : p.1 = a
    · subst hc
      have hnone : getProp ps.reverse p.1 = none := by
        rw [getProp_eq_none, keysOf_reverse, List.mem_reverse]
        exact hn.1
      rw [hnone, Option.none_or]
      simp [getProp]
    · have h1 : getProp [p] a = none := by simp [getProp, hc]
      rw [h1, Option.or_none, ih hn.2]
      simp [getProp, hc]

theorem objAssign_of_fresh {V : Type} (m src : StrMap V)
    (hnd : (keysOf src).Nodup) (hdisj : ∀ a ∈ keysOf src, a ∉ keysOf m) :
    objAssign m src = m ++ src := by
  induction src generalizing m with
  | nil => simp [objAssign]
  | cons p ps ih =>
    have hcons : keysOf (p :: ps) = p.1 :: keysOf ps := rfl
    rw [hcons] at hnd hdisj
    have hn := List.nodup_cons.mp hnd
    have hp : p.1 ∉ keysOf m := hdisj p.1 (List.mem_cons_self _ _)
    have hset : setProp m p.1 p.2 = m ++ [p] := by
      unfold setProp
      rw [if_neg hp]
    have hdisj2 : ∀ a ∈ keysOf ps, a ∉ keysOf (m ++ [p]) := by
      intro a ha hmem
      rw [keysOf_append, List.mem_append] at hmem
      rcases hmem with h1 | h1
      · exact hdisj a (List.mem_cons_of_mem _ ha) h1
      · have h2 : a = p.1 := by simpa [keysOf] using h1
        subst h2
        exact hn.1 ha
    calc objAssign m (p :: ps) = objAssign (m ++ [p]) ps := by
          rw [objAssign_cons, hset]
    _ = (m ++ [p]) ++ ps := ih (m ++ [p]) hn.2 hdisj2
    _ = m ++ p :: ps := by simp

end GqlHelper

namespace GqlHelper

/-! ## Builder success and failure lemmas -/

theorem queryBuild_ok_elim {ign : Bool} {s : GqlState} {name : String}
    {varsDef : Option (StrMap String)} {chunks : List String}
    {values : List Value} {s1 : GqlState} {op : Operation}
    (h : queryBuild ign s name varsDef chunks values = .ok (s1, op)) :
    op = { operationName := name,
           operation := "query " ++ name ++ " " ++ queryParams varsDef ++ " " ++
             stringRaw chunks values,
           fragments := mergeFragments values,
           queryString := ("query " ++ name ++ " " ++ queryParams varsDef ++ " " ++
             stringRaw chunks values) ++ " " ++ joinSp (valuesOf (mergeFragments values)),
           isMutation := false } ∧
      s1 = { s with operationDefinitions := setProp s.operationDefinitions name op } := by
  unfold queryBuild at h
  split at h
  · exact absurd h (by simp)
  · simp only [Except.ok.injEq, Prod.mk.injEq] at h
    obtain ⟨h1, h2⟩ := h
    subst h2
    subst h1
    exact ⟨rfl, rfl⟩

theorem mutationBuild_ok_elim {ign : Bool} {s : GqlState} {mh : MutationHead}
    {chunks : List String} {values : List Value} {s1 : GqlState} {op : Operation}
    (h : mutationBuild ign s mh chunks values = .ok (s1, op)) :
    op = { operationName := mh.capitalized,
           operation := mutationOperationText mh chunks values,
           fragments := mergeFragments values,
           queryString := mutationOperationText mh chunks values ++ " " ++
             joinSp (valuesOf (mergeFragments values)),
           isMutation := true } ∧
      s1 = { s with operationDefinitions :=
               setProp s.operationDefinitions mh.capitalized op } := by
  unfold mutationBuild at h
  split at h
  · exact absurd h (by simp)
  · simp only [Except.ok.injEq, Prod.mk.injEq] at h
    obtain ⟨h1, h2⟩ := h
    subst h2
    subst h1
    exact ⟨rfl, rfl⟩

theorem fragmentBuild_ok_elim {ign : Bool} {s : GqlState} {name type : String}
    {chunks : List String} {values : List Value} {s1 : GqlState} {f : Fragment}
    (h : fragmentBuild ign s name type chunks values = .ok (s1, f)) :
    f = { name := name, type := type,
          fragments := setProp (mergeFragments values) name
            (fragmentDefText name type chunks values) } ∧
      s1 = { s with fragmentDefinitions := setProp s.fragmentDefinitions name f } := by
  unfold fragmentBuild at h
  split at h
  · exact absurd h (by simp)
  · simp only [Except.ok.injEq, Prod.mk.injEq] at h
    obtain ⟨h1, h2⟩ := h
    subst h2
    subst h1
    exact ⟨rfl, rfl⟩

theorem queryBuild_error_of_some {s : GqlState} {name : String} {op : Operation}
    (varsDef : Option (StrMap String)) (chunks : List String) (values : List Value)
    (h : getProp s.operationDefinitions name = some op) :
    queryBuild false s name varsDef chunks values =
      .error ( "ERROR: There is already an operation named " ++ name) := by
  unfold queryBuild
  rw [h]
  rfl

theorem mutationBuild_error_of_some {s : GqlState} {mh : MutationHead} {op : Operation}
    (chunks : List String) (values : List Value)
    (h : getProp s.operationDefinitions mh.capitalized = some op) :
    mutationBuild false s mh chunks values =
      .error ( "ERROR: There is already an operation named " ++ mh.capitalized) := by
  unfold mutationBuild
  rw [h]
  rfl

theorem fragmentBuild_error_of_some {s : GqlState} {name : String} {f : Fragment}
    (type : String) (chunks : List String) (values : List Value)
    (h : getProp s.fragmentDefinitions name = some f) :
    fragmentBuild false s name type chunks values =
      .error ( "ERROR: there is already a fragment with name " ++ name) := by
  unfold fragmentBuild
  rw [h]
  rfl

/-! ## Lemmas about the dependency merger -/

theorem mem_keysOf_mergeFoldl (ps : List Piece) (m : StrMap String) (a : String) :
    a ∈ keysOf (ps.foldl (fun acc p => objAssign acc p.fragments) m) ↔
      a ∈ keysOf m ∨ ∃ p ∈ ps, a ∈ keysOf p.fragments := by
  induction ps generalizing m with
  | nil => simp
  | cons p ps ih =>
    rw [List.foldl_cons, ih, mem_keysOf_objAssign]
    simp [List.exists_mem_cons_iff]
    tauto

theorem nodup_keysOf_mergeFoldl (ps : List Piece) (m : StrMap String)
    (h : (keysOf m).Nodup) :
    (keysOf (ps.foldl (fun acc p => objAssign acc p.fragments) m)).Nodup := by
  induction ps generalizing m with
  | nil => exact h
  | cons p ps ih => exact ih _ (nodup_keysOf_objAssign _ _ h)

theorem mem_keysOf_mergeFragments (values : List Value) (a : String) :
    a ∈ keysOf (mergeFragments values) ↔
      ∃ p ∈ values.filterMap Value.asPiece, a ∈ keysOf p.fragments := by
  unfold mergeFragments
  rw [mem_keysOf_mergeFoldl]
  simp [keysOf]

theorem nodup_keysOf_mergeFragments (values : List Value) :
    (keysOf (mergeFragments values)).Nodup :=
  nodup_keysOf_mergeFoldl _ _ (by simp [keysOf])

theorem getProp_mergeFoldl_skip (ps : List Piece) (m : StrMap String) (k : String)
    (h : ∀ p ∈ ps, k ∉ keysOf p.fragments) :
    getProp (ps.foldl (fun acc p => objAssign acc p.fragments) m) k = getProp m k := by
  induction ps generalizing m with
  | nil => rfl
  | cons p ps ih =>
    rw [List.foldl_cons, ih _ (fun r hr => h r (List.mem_cons_of_mem _ hr))]
    rw [getProp_objAssign]
    have hnone : getProp p.fragments.reverse k = none := by
      rw [getProp_eq_none, keysOf_reverse, List.mem_reverse]
      exact h p (List.mem_cons_self _ _)
    rw [hnone, Option.none_or]

theorem getProp_mergeFragments_pair (p q : Piece) (a : String)
    (hp : (keysOf p.fragments).Nodup) (hq : (keysOf q.fragments).Nodup) :
    getProp (mergeFragments [Value.piece p, Value.piece q]) a =
      (getProp q.fragments a).or (getProp p.fragments a) := by
  show getProp (objAssign (objAssign [] p.fragments) q.fragments) a = _
  rw [getProp_objAssign, getProp_objAssign, getProp_reverse _ _ hq,
    getProp_reverse _ _ hp]
  have h0 : getProp ([] : StrMap String) a = none := rfl
  rw [h0, Option.or_none]

/-! ## Lemmas about fragment construction trees -/

theorem buildList_filterMap (ts : List FTree) :
    (FTree.buildList ts).filterMap Value.asPiece =
      ts.map (fun t => (FTree.build t).toPiece) := by
  induction ts with
  | nil => rfl
  | cons t ts ih => simp [FTree.buildList, Value.asPiece, ih, List.filterMap_cons]

theorem mem_reachList (ts : List FTree) (a : String) :
    a ∈ FTree.reachList ts ↔ ∃ t ∈ ts, a ∈ FTree.reachNames t := by
  induction ts with
  | nil => simp [FTree.reachList]
  | cons t ts ih => simp [FTree.reachList, List.mem_append, ih, List.exists_mem_cons_iff]

mutual

theorem build_fragments_keys : ∀ t : FTree,
    (keysOf (FTree.build t).fragments).Nodup ∧
      ∀ a, a ∈ keysOf (FTree.build t).fragments ↔ a ∈ FTree.reachNames t
  | .node n ty ch deps => by
    have hb : (FTree.build (FTree.node n ty ch deps)).fragments =
        setProp (mergeFragments (FTree.buildList deps)) n
          (fragmentDefText n ty ch (FTree.buildList deps)) := by
      rw [FTree.build]
    rw [hb]
    have hIH : ∀ d ∈ deps, ∀ a,
        a ∈ keysOf (FTree.build d).fragments ↔ a ∈ FTree.reachNames d :=
      fun d hd => (build_fragments_keys_list deps d hd).2
    constructor
    · exact nodup_keysOf_setProp _ _ _ (nodup_keysOf_mergeFragments _)
    · intro a
      rw [mem_keysOf_setProp, mem_keysOf_mergeFragments, buildList_filterMap]
      rw [show FTree.reachNames (FTree.node n ty ch deps) = n :: FTree.reachList deps
        from rfl]
    
      constructor
      · rintro (⟨p, hp, hap⟩ | rfl)
        · rcases List.mem_map.mp hp with ⟨d, hd, rfl⟩
          exact List.mem_cons_of_mem _
            ((mem_reachList _ _).mpr ⟨d, hd, (hIH d hd a).mp hap⟩)
        · exact List.mem_cons_self _ _
      · intro ha
        rcases List.mem_cons.mp ha with rfl | h2
        · exact Or.inr rfl
        · rcases (mem_reachList _ _).mp h2 with ⟨d, hd, had⟩
          exact Or.inl ⟨(FTree.build d).toPiece, List.mem_map_of_mem _ hd,
            (hIH d hd a).mpr had⟩

theorem build_fragments_keys_list : ∀ ts : List FTree, ∀ t ∈ ts,
    (keysOf (FTree.build t).fragments).Nodup ∧
      ∀ a, a ∈ keysOf (FTree.build t).fragments ↔ a ∈ FTree.reachNames t
  | [], t, ht => absurd ht (List.not_mem_nil t)
  | u :: ts, t, ht => by
    rcases List.mem_cons.mp ht with rfl | h
    · exact build_fragments_keys t
    · exact build_fragments_keys_list ts t h

end

end GqlHelper

namespace GqlHelper

/-! ## The claims -/

/-- C1: for every Fragment built with interpolated fragment-bearing values
(modelled by a construction tree), a successful `fragmentBuild` returns
exactly the tree semantics `FTree.build`; every built fragment map has no
duplicate keys and its key set is exactly the set of names transitively
reachable from the fragment (flattened and deduplicated); and for an
ancestor query referencing two fragments with a transitively common
dependency `cname` (diamond dependency), the ancestor's merged fragment map
holds exactly one entry keyed `cname`, so that the dependency's definition
text is joined into the final document text exactly once. -/
theorem fragment_flattening_diamond_once
    (a b : FTree) (cname : String) (s : GqlState) (qname : String)
    (varsDef : Option (StrMap String)) (chunks : List String)
    (s1 : GqlState) (op : Operation)
    (hq : queryBuild false s qname varsDef chunks
        [Value.piece (FTree.build a).toPiece, Value.piece (FTree.build b).toPiece] =
        .ok (s1, op))
    (hca : cname ∈ FTree.reachNames a) (hcb : cname ∈ FTree.reachNames b) :
    (∀ (ign : Bool) (s2 : GqlState) (n ty : String) (ch : List String)
        (ds : List FTree) (s3 : GqlState) (f : Fragment),
      fragmentBuild ign s2 n ty ch (FTree.buildList ds) = .ok (s3, f) →
      f = FTree.build (FTree.node n ty ch ds)) ∧
    (∀ t : FTree, (keysOf (FTree.build t).fragments).Nodup ∧
      ∀ nm, nm ∈ keysOf (FTree.build t).fragments ↔ nm ∈ FTree.reachNames t) ∧
    (keysOf op.fragments).Nodup ∧
    (∀ nm, nm ∈ keysOf op.fragments ↔
      nm ∈ FTree.reachNames a ∨ nm ∈ FTree.reachNames b) ∧
    (keysOf op.fragments).count cname = 1 := by
  obtain ⟨hop, -⟩ := queryBuild_ok_elim hq
  have hfr : op.fragments = mergeFragments
      [Value.piece (FTree.build a).toPiece, Value.piece (FTree.build b).toPiece] := by
    rw [hop]
  have hnodup : (keysOf op.fragments).Nodup := by
    rw [hfr]
    exact nodup_keysOf_mergeFragments _
  have hmem : ∀ nm, nm ∈ keysOf op.fragments ↔
      nm ∈ FTree.reachNames a ∨ nm ∈ FTree.reachNames b := by
    intro nm
    rw [hfr]
    have hiff : nm ∈ keysOf (mergeFragments
        [Value.piece (FTree.build a).toPiece, Value.piece (FTree.build b).toPiece]) ↔
        ∃ p ∈ [(FTree.build a).toPiece, (FTree.build b).toPiece],
          nm ∈ keysOf p.fragments :=
      mem_keysOf_mergeFragments _ nm
    rw [hiff]
    constructor
    · rintro ⟨p, hp, hnm⟩
      simp only [List.mem_cons, List.not_mem_nil, or_false] at hp
      rcases hp with rfl | rfl
      · exact Or.inl (((build_fragments_keys a).2 nm).mp hnm)
      · exact Or.inr (((build_fragments_keys b).2 nm).mp hnm)
    · rintro (h | h)
      · exact ⟨(FTree.build a).toPiece, by simp, ((build_fragments_keys a).2 nm).mpr h⟩
      · exact ⟨(FTree.build b).toPiece, by simp, ((build_fragments_keys b).2 nm).mpr h⟩
  refine ⟨?_, build_fragments_keys, hnodup, hmem, ?_⟩
  · intro ign s2 n ty ch ds s3 f hf
    obtain ⟨hf1, -⟩ := fragmentBuild_ok_elim hf
    rw [hf1, FTree.build]
  · exact List.count_eq_one_of_mem hnodup ((hmem cname).mpr (Or.inl hca))

/-- Witness for C1: the concrete diamond C below A and B, referenced by a
query over both, where C ends up in the document exactly once. -/
theorem fragment_flattening_diamond_once_witness :
    "C" ∈ FTree.reachNames c1TreeA ∧ "C" ∈ FTree.reachNames c1TreeB ∧
      (keysOf c1Op.fragments).count "C" = 1 ∧
      keysOf c1Op.fragments = [ "C", "A", "B" ] := by
  have hq : queryBuild false ⟨[], []⟩ "Q" none [ "\x7b ", " ", " \x7d" ]
      [Value.piece (FTree.build c1TreeA).toPiece,
        Value.piece (FTree.build c1TreeB).toPiece] = .ok (c1St, c1Op) := rfl
  have h := fragment_flattening_diamond_once c1TreeA c1TreeB "C" ⟨[], []⟩ "Q" none
    [ "\x7b ", " ", " \x7d" ] c1St c1Op hq (by decide) (by decide)
  exact ⟨by decide, by decide, h.2.2.2.2, by decide⟩

/-- C2 counterexample: two fragment-bearing values supplying different
definition texts under the same name; the merger keeps the later text, not
the earlier one, so first-writer-wins is false at this input. -/
theorem merge_first_writer_wins_cex :
    getProp (mergeFragments
        [Value.piece ⟨ "...A", [( "A", "defX" )] ⟩,
          Value.piece ⟨ "...A", [( "A", "defY" )] ⟩ ]) "A" = some "defY" ∧
      ( "defY" : String) ≠ "defX" :=
  ⟨rfl, by decide⟩

/-- C2 amended: for every sequence of interpolated values in which two
fragment-bearing values `p` and `q` supply definition text under the same
fragment name - `p` anywhere before `q`, with arbitrary other values before,
between and after them, as long as no fragment-bearing value after `q`
writes that name again (so `q` is the last writer of it) - the merged
mapping retains the definition text supplied by the later-encountered value
`q` and silently drops the earlier one (last writer wins); no error is
raised (the merger is total by construction). -/
theorem merge_last_writer_wins (vs1 vs2 vs3 : List Value) (p q : Piece)
    (k v w : String) (hq : (keysOf q.fragments).Nodup)
    (hkp : getProp p.fragments k = some v) (hkq : getProp q.fragments k = some w)
    (hlater : ∀ r ∈ vs3.filterMap Value.asPiece, k ∉ keysOf r.fragments) :
    getProp (mergeFragments
        (vs1 ++ [Value.piece p] ++ vs2 ++ [Value.piece q] ++ vs3)) k = some w := by
  unfold mergeFragments
  simp only [List.filterMap_append, List.filterMap_cons, List.filterMap_nil,
    Value.asPiece]
  rw [List.foldl_append, List.foldl_append, List.foldl_append, List.foldl_append]
  simp only [List.foldl_cons, List.foldl_nil]
  rw [getProp_mergeFoldl_skip _ _ _ hlater, getProp_objAssign,
    getProp_reverse _ _ hq, hkq]
  rfl

/-- Witness for the amended C2: a colliding pair of fragment-bearing values
surrounded by plain values and by unrelated fragment-bearing values. -/
theorem merge_last_writer_wins_witness :
    getProp (mergeFragments
        ([Value.plain " x "] ++ [Value.piece ⟨ "...A", [( "A", "defX" )] ⟩]
          ++ [Value.plain " y ", Value.piece ⟨ "...B", [( "B", "defB" )] ⟩]
          ++ [Value.piece ⟨ "...A", [( "A", "defY" )] ⟩]
          ++ [Value.piece ⟨ "...C", [( "C", "defC" )] ⟩])) "A" = some "defY" :=
  merge_last_writer_wins [Value.plain " x "]
    [Value.plain " y ", Value.piece ⟨ "...B", [( "B", "defB" )] ⟩]
    [Value.piece ⟨ "...C", [( "C", "defC" )] ⟩]
    ⟨ "...A", [( "A", "defX" )] ⟩ ⟨ "...A", [( "A", "defY" )] ⟩
    "A" "defX" "defY" (by decide) rfl rfl (by decide)

/-- C3 counterexample: at a concrete query with one fragment the document
text joins the operation and the fragment definitions with single spaces,
not with the two-newline separator the claim states. -/
theorem query_document_sep_cex :
    c3Op.queryString = "query Q  \x7b a ...F \x7d fragment F on F \x7b x \x7d" ∧
      c3Op.queryString ≠
        c3Op.operation ++ "\n\n" ++
          String.intercalate "\n\n" (valuesOf c3Op.fragments) := by
  constructor
  · rfl
  · decide

/-- C3 amended: for every built Query, the document text equals the
operation text, followed by one space, followed by the merged fragment
definition texts joined by single spaces. -/
theorem query_document_layout (ign : Bool) (s : GqlState) (name : String)
    (varsDef : Option (StrMap String)) (chunks : List String) (values : List Value)
    (s1 : GqlState) (op : Operation)
    (h : queryBuild ign s name varsDef chunks values = .ok (s1, op)) :
    op.queryString = op.operation ++ " " ++ joinSp (valuesOf op.fragments) := by
  obtain ⟨hop, -⟩ := queryBuild_ok_elim h
  rw [hop]

/-- Witness for the amended C3 at the concrete one-fragment query. -/
theorem query_document_layout_witness :
    c3Op.queryString = c3Op.operation ++ " " ++ joinSp (valuesOf c3Op.fragments) := by
  have h : c3Res = .ok ((c3Res.toOption.map Prod.fst).getD default, c3Op) := rfl
  exact query_document_layout false ⟨[], []⟩ "Q" none [ "\x7b a ", " \x7d" ]
    [Value.piece ⟨ "...F", [( "F", "fragment F on F \x7b x \x7d" )] ⟩ ]
    ((c3Res.toOption.map Prod.fst).getD default) c3Op h

/-- C4 counterexample: with `variablesDef = \x7bid: ID!\x7d` and the claimed
body, the rendered operation text is `query GetPost ($id:ID!) ...` with no
space after the colon and a single space before the body, not the claimed
`query GetPost ($id: ID!)  ...`. -/
theorem query_varclause_cex :
    c4Op.operation = "query GetPost ($id:ID!) \x7b post(id: $id) \x7b title \x7d \x7d" ∧
      c4Op.operation ≠
        "query GetPost ($id: ID!)  \x7b post(id: $id) \x7b title \x7d \x7d" :=
  ⟨rfl, by decide⟩

/-- C4 amended: a Query built with `variablesDef = \x7bid: ID!\x7d` and body
`\x7b post(id: $id) \x7b title \x7d \x7d` and no interpolated fragments has
operation text `query <Name> ($id:ID!) \x7b post(id: $id) \x7b title \x7d \x7d`
(each entry rendered as `$key:type` with no spaces, entries joined by bare
commas, in insertion order), an empty fragment map, and a document equal to
the operation text followed by a single trailing space. -/
theorem query_varclause_rendering (s : GqlState) (name : String)
    (s1 : GqlState) (op : Operation)
    (h : queryBuild false s name (some [( "id", "ID!" )])
        [ "\x7b post(id: $id) \x7b title \x7d \x7d" ] [] = .ok (s1, op)) :
    op.operation = "query " ++ name ++ " " ++ "($id:ID!)" ++ " " ++
        "\x7b post(id: $id) \x7b title \x7d \x7d" ∧
      op.fragments = [] ∧ op.queryString = op.operation ++ " " := by
  obtain ⟨hop, -⟩ := queryBuild_ok_elim h
  rw [hop]
  refine ⟨rfl, rfl, ?_⟩
  rw [show joinSp (valuesOf (mergeFragments ([] : List Value))) = "" from rfl]
  rw [String.append_empty]

/-- Witness for the amended C4 at the concrete GetPost query. -/
theorem query_varclause_rendering_witness :
    c4Op.operation = "query " ++ "GetPost" ++ " " ++ "($id:ID!)" ++ " " ++
        "\x7b post(id: $id) \x7b title \x7d \x7d" ∧ c4Op.fragments = [] := by
  have h := query_varclause_rendering ⟨[], []⟩ "GetPost" c4St c4Op rfl
  exact ⟨h.1, h.2.1⟩

/-- C5: after a successful fragment registration under a name, a second
fragment-builder call with the same name (invariants not ignored) returns
the duplicate-registration error synchronously, and the registry entry for
that name is still exactly the first-registered Fragment (the failing call
returns no new state, so the registry is unchanged). -/
theorem fragment_duplicate_rejected (s0 s1 : GqlState) (name ty1 ty2 : String)
    (ch1 ch2 : List String) (vs1 vs2 : List Value) (f1 : Fragment)
    (h1 : fragmentBuild false s0 name ty1 ch1 vs1 = .ok (s1, f1)) :
    fragmentBuild false s1 name ty2 ch2 vs2 =
        .error ( "ERROR: there is already a fragment with name " ++ name) ∧
      getProp s1.fragmentDefinitions name = some f1 := by
  obtain ⟨-, hs⟩ := fragmentBuild_ok_elim h1
  have hreg : getProp s1.fragmentDefinitions name = some f1 := by
    rw [hs]
    exact getProp_setProp_self _ _ _
  exact ⟨fragmentBuild_error_of_some ty2 ch2 vs2 hreg, hreg⟩

/-- Witness for C5: registering F twice on a fresh registry. -/
theorem fragment_duplicate_rejected_witness :
    fragmentBuild false c5St "F" "F" [ "\x7b y \x7d" ] [] =
        .error ( "ERROR: there is already a fragment with name " ++ "F") ∧
      getProp c5St.fragmentDefinitions "F" = some c5Frag :=
  fragment_duplicate_rejected ⟨[], []⟩ c5St "F" "F" "F"
    [ "\x7b x \x7d" ] [ "\x7b y \x7d" ] [] [] c5Frag rfl

/-- C6: the query callable's continuation fails with exactly the raw errors
value when the response carries a non-empty errors array, and resolves to
the response's data field when the response carries no errors (a null or
absent errors field). -/
theorem query_callable_error_handling (d : Js) (errs : List Js) (hne : errs ≠ []) :
    queryHandle ⟨d, Js.arr errs⟩ = .error (Js.arr errs) ∧
      ∀ d2 : Js, queryHandle ⟨d2, Js.null⟩ = .ok d2 ∧
        queryHandle ⟨d2, Js.undefined⟩ = .ok d2 :=
  ⟨rfl, fun _ => ⟨rfl, rfl⟩⟩

/-- Witness for C6 at the concrete response of the claim. -/
theorem query_callable_error_handling_witness :
    ([Js.obj [( "message", Js.str "x" )]] ≠ ([] : List Js)) ∧
      queryHandle ⟨Js.null, Js.arr [Js.obj [( "message", Js.str "x" )]]⟩ =
        .error (Js.arr [Js.obj [( "message", Js.str "x" )]]) := by
  have h := query_callable_error_handling Js.null
    [Js.obj [( "message", Js.str "x" )]] (List.cons_ne_nil _ _)
  exact ⟨List.cons_ne_nil _ _, h.1⟩

/-- C7: a Mutation built with name createPost has operation text beginning
with `mutation CreatePost($input: CreatePostInput!)`; its callable wraps the
caller variables plus a freshly generated clientMutationId inside the input
field of the outgoing payload; and on a successful response it resolves to
the unwrapped `data.payload`. -/
theorem mutation_createPost_shape (mh : MutationHead) (s : GqlState)
    (ch : List String) (vs : List Value) (s1 : GqlState) (op : Operation)
    (hm1 : mutationStage1 "createPost" = .ok mh)
    (hb : mutationBuild false s mh ch vs = .ok (s1, op)) :
    op.operation =
        ( "mutation CreatePost($input: CreatePostInput!)" ++
          "\x7b\n      payload: createPost(input: $input) \x7b\n        clientMutationId\n        ... on CreatePostPayload " ) ++
          stringRaw ch vs ++ "\n      \x7d\n    \x7d" ∧
      (∀ (gen : String) (vars : StrMap Js), (keysOf vars).Nodup →
        "clientMutationId" ∉ keysOf vars →
        mutationInvokeBody gen vars =
          Js.obj [( "input", Js.obj (( "clientMutationId", Js.str gen) :: vars) )]) ∧
      ∀ (p : Js) (rest : List (String × Js)),
        mutationHandle ⟨Js.obj (( "payload", p) :: rest), Js.null⟩ = .ok p := by
  have hc : mutationStage1 "createPost" =
      .ok { name := "createPost", capitalized := "CreatePost",
            inputType := "CreatePostInput", payloadType := "CreatePostPayload" } := rfl
  rw [hc] at hm1
  injection hm1 with hm1
  subst hm1
  obtain ⟨hop, -⟩ := mutationBuild_ok_elim hb
  refine ⟨?_, ?_, ?_⟩
  · rw [hop]
    rfl
  · intro gen vars hnd hfresh
    have hd2 : ∀ x ∈ keysOf vars, x ∉ keysOf [( "clientMutationId", Js.str gen )] := by
      intro x hx hmem
      have h3 : x = "clientMutationId" := by simpa [keysOf] using hmem
      subst h3
      exact hfresh hx
    show Js.obj [( "input",
        Js.obj (objAssign [( "clientMutationId", Js.str gen )] vars) )] = _
    rw [objAssign_of_fresh _ _ hnd hd2]
    rfl
  · intro p rest
    rfl

/-- Witness for C7 at a concretely built createPost mutation. -/
theorem mutation_createPost_shape_witness :
    c7Op.operation =
        ( "mutation CreatePost($input: CreatePostInput!)" ++
          "\x7b\n      payload: createPost(input: $input) \x7b\n        clientMutationId\n        ... on CreatePostPayload " ) ++
          stringRaw [ "\x7b post \x7b title \x7d \x7d" ] [] ++ "\n      \x7d\n    \x7d" ∧
      mutationInvokeBody "GEN" [( "title", Js.str "T" )] =
        Js.obj [( "input", Js.obj [( "clientMutationId", Js.str "GEN" ),
          ( "title", Js.str "T" )] )] ∧
      mutationHandle ⟨Js.obj [( "payload", Js.str "P" )], Js.null⟩ =
        .ok (Js.str "P") := by
  have h := mutation_createPost_shape c7Head ⟨[], []⟩
    [ "\x7b post \x7b title \x7d \x7d" ] [] c7St c7Op rfl rfl
  exact ⟨h.1, h.2.1 "GEN" [( "title", Js.str "T" )] (by decide) (by decide),
    h.2.2 (Js.str "P") []⟩

/-- C8: a Union of two Fragments stringifies to exactly
`__typename ...A ...B`, its fragment map is the union of the members'
fragment maps (stated for members that agree on shared names, which the
one-shot registry guarantees), and the zero-member union stringifies to
`__typename ` without error. -/
theorem union_of_two_fragments (A B : Fragment)
    (hA : (keysOf A.fragments).Nodup) (hB : (keysOf B.fragments).Nodup)
    (hAgree : ∀ k v w, getProp A.fragments k = some v →
      getProp B.fragments k = some w → v = w) :
    (unionOf [A.toPiece, B.toPiece]).text =
        "__typename " ++ ( "..." ++ A.name ++ " " ++ ( "..." ++ B.name)) ∧
      (∀ k, getProp (unionOf [A.toPiece, B.toPiece]).fragments k =
        (getProp A.fragments k).or (getProp B.fragments k)) ∧
      (∀ k, k ∈ keysOf (unionOf [A.toPiece, B.toPiece]).fragments ↔
        k ∈ keysOf A.fragments ∨ k ∈ keysOf B.fragments) ∧
      (unionOf []).text = "__typename " := by
  refine ⟨rfl, ?_, ?_, rfl⟩
  · intro k
    have hpair : getProp (unionOf [A.toPiece, B.toPiece]).fragments k =
        (getProp B.fragments k).or (getProp A.fragments k) :=
      getProp_mergeFragments_pair A.toPiece B.toPiece k hA hB
    rw [hpair]
    cases hA2 : getProp A.fragments k with
    | none =>
      cases hB2 : getProp B.fragments k with
      | none => rfl
      | some w => rfl
    | some v =>
      cases hB2 : getProp B.fragments k with
      | none => rfl
      | some w =>
        have hvw := hAgree k v w hA2 hB2
        subst hvw
        rfl
  · intro k
    have hm : k ∈ keysOf (unionOf [A.toPiece, B.toPiece]).fragments ↔
        ∃ p ∈ [A.toPiece, B.toPiece], k ∈ keysOf p.fragments :=
      mem_keysOf_mergeFragments _ k
    rw [hm]
    simp [List.exists_mem_cons_iff, Fragment.toPiece]

/-- Witness for C8 with two fragments carrying identical fragment maps. -/
theorem union_of_two_fragments_witness :
    (unionOf [c8FragA.toPiece, c8FragB.toPiece]).text =
        "__typename " ++ ( "..." ++ "A" ++ " " ++ ( "..." ++ "B")) ∧
      (unionOf []).text = "__typename " := by
  have hAgree : ∀ k v w, getProp c8FragA.fragments k = some v →
      getProp c8FragB.fragments k = some w → v = w := by
    intro k v w h1 h2
    have h3 : getProp c8FragA.fragments k = some w := h2
    rw [h1] at h3
    exact Option.some.inj h3
  have h := union_of_two_fragments c8FragA c8FragB (by decide) (by decide) hAgree
  exact ⟨h.1, h.2.2.2⟩

/-- C9: queries and mutations share one process-wide operation registry
keyed by the externally visible name: a mutation whose capitalized name
collides with a registered query fails with the duplicate-operation error,
and a query whose name collides with a registered mutation's capitalized
name fails the same way. -/
theorem operation_registry_shared :
    (∀ (s : GqlState) (qname : String) (varsDef : Option (StrMap String))
        (ch : List String) (vs : List Value) (s1 : GqlState) (op : Operation)
        (mname : String) (mh : MutationHead) (ch2 : List String) (vs2 : List Value),
      queryBuild false s qname varsDef ch vs = .ok (s1, op) →
      mutationStage1 mname = .ok mh →
      mh.capitalized = qname →
      mutationBuild false s1 mh ch2 vs2 =
        .error ( "ERROR: There is already an operation named " ++ qname)) ∧
    (∀ (s : GqlState) (mh : MutationHead) (ch : List String) (vs : List Value)
        (s1 : GqlState) (op : Operation) (varsDef : Option (StrMap String))
        (ch2 : List String) (vs2 : List Value),
      mutationBuild false s mh ch vs = .ok (s1, op) →
      queryBuild false s1 mh.capitalized varsDef ch2 vs2 =
        .error ( "ERROR: There is already an operation named " ++ mh.capitalized)) := by
  constructor
  · intro s qname varsDef ch vs s1 op mname mh ch2 vs2 hq hm1 hcap
    obtain ⟨-, hs⟩ := queryBuild_ok_elim hq
    have hreg : getProp s1.operationDefinitions mh.capitalized = some op := by
      rw [hs, hcap]
      exact getProp_setProp_self _ _ _
    have herr := mutationBuild_error_of_some ch2 vs2 hreg
    rw [hcap] at herr
    exact herr
  · intro s mh ch vs s1 op varsDef ch2 vs2 hm
    obtain ⟨-, hs⟩ := mutationBuild_ok_elim hm
    have hreg : getProp s1.operationDefinitions mh.capitalized = some op := by
      rw [hs]
      exact getProp_setProp_self _ _ _
    exact queryBuild_error_of_some varsDef ch2 vs2 hreg

/-- Witness for C9: a CreatePost query blocks the createPost mutation, and a
createPost mutation blocks a CreatePost query. -/
theorem operation_registry_shared_witness :
    mutationBuild false c9QSt c9Head [ "\x7b b \x7d" ] [] =
        .error ( "ERROR: There is already an operation named " ++ "CreatePost") ∧
      queryBuild false c9MSt "CreatePost" none [ "\x7b c \x7d" ] [] =
        .error ( "ERROR: There is already an operation named " ++ "CreatePost") := by
  constructor
  · exact operation_registry_shared.1 ⟨[], []⟩ "CreatePost" none [ "\x7b a \x7d" ] []
      c9QSt c9QOp "createPost" c9Head [ "\x7b b \x7d" ] [] rfl rfl rfl
  · exact operation_registry_shared.2 ⟨[], []⟩ c9Head [ "\x7b m \x7d" ] []
      c9MSt c9MOp none [ "\x7b c \x7d" ] [] rfl

/-- C10: calling the mutation builder with the empty string throws a
TypeError already in the first-stage call (capitalize reads the first
character, which does not exist), before any template literal is applied and
before any registry check (the first stage takes no registry state at all);
every non-empty name makes the first stage succeed. -/
theorem mutation_empty_name_typeerror (name : String) (hne : name ≠ "") :
    mutationStage1 "" = .error "TypeError" ∧
      capitalize "" = .error "TypeError" ∧
      (mutationStage1 name).isOk = true := by
  refine ⟨rfl, rfl, ?_⟩
  cases name with
  | mk data =>
    cases data with
    | nil => exact absurd rfl hne
    | cons c cs => rfl

/-- Witness for C10 at the empty name and the name x. -/
theorem mutation_empty_name_typeerror_witness :
    ( "x" : String) ≠ "" ∧ mutationStage1 "" = .error "TypeError" ∧
      (mutationStage1 "x").isOk = true := by
  have h := mutation_empty_name_typeerror "x" (by decide)
  exact ⟨by decide, h.1, h.2.2⟩

end GqlHelper
